import Mathlib

/-!
Verification of the retrieval/ranking subsystem of a RAG chatbot
(question analysis, multi-signal chunk scoring, dedup/ranking,
context length limiting, store search filters).

Modelling conventions:
- JavaScript strings are modelled as `List Char` (`Str`); `toLowerCase` as a
  character-wise `Char.toLower`; `includes` as infix test; the occurrence
  count from a global regex match of a literal pattern as the non-overlapping
  left-to-right occurrence count.
- JavaScript numbers holding scores and embedding entries are modelled as
  exact rationals (every IEEE float denotes a rational); the cosine
  similarity, which takes a real square root, is idealised over `ℝ`.
- `Map` keyed by chunk id is modelled as an insertion-ordered association
  list, as JS `Map` preserves insertion order and `set` on an existing key
  keeps its position.
-/

/-- JavaScript strings as lists of characters. -/
abbrev Str := List Char

/-- A Lean string literal viewed as a `Str`. -/
def toStr (s : String) : Str := s.data

/-- `s.toLowerCase()` modelled character-wise. -/
def lowerStr (s : Str) : Str := s.map Char.toLower

/-- `s.includes(p)`: substring (infix) test. -/
def jsIncludes (s p : Str) : Bool := decide (p <:+: s)

/-- Number of non-overlapping occurrences of `p` in `s`, scanning left to
right, as returned by `s.match(new RegExp(p, 'g')).length` for a literal
pattern `p`; a JS global regex with an empty pattern matches at every
position, giving `s.length + 1`. -/
def countOccAux (p : Str) : Str → ℕ
  | [] => 0
  | c :: rest =>
    if p.isPrefixOf (c :: rest) then 1 + countOccAux p (rest.drop (p.length - 1))
    else countOccAux p rest
termination_by s => s.length
decreasing_by
  · simp only [List.length_cons]
    have h := List.length_drop (p.length - 1) rest
    omega
  · simp only [List.length_cons]; omega

/-- Occurrence count including the JS empty-pattern convention. -/
def countOcc (p s : Str) : ℕ :=
  if p = [] then s.length + 1 else countOccAux p s

/-- Chunk record as stored in Firestore (`PDFChunk`); the timestamp fields
and positional metadata are never read by the modelled operations and are
omitted. The `embedding` field is optional: chunks without one never
contribute a semantic score. -/
structure PDFChunk where
  id : Str
  documentId : Str
  content : Str
  keywords : List Str
  searchableText : Str
  embedding : Option (List ℚ)
deriving DecidableEq, Repr

/-- The structured decomposition of one user question. `expandedKeywords`
is attached later by the synonym-expansion step and may be absent. -/
structure QuestionAnalysis where
  intent : Str
  keywords : List Str
  expandedKeywords : Option (List Str)
  category : Str
  complexity : Str
  entities : List Str
  context : Str
deriving DecidableEq, Repr

/-- Converted chunk as consumed by the ranker (the `Chunk` interface);
citation metadata (source, title, page, section, location) is never
inspected by the modelled operations and is omitted. -/
structure Chunk where
  id : Str
  content : Str
  keywords : List Str
deriving DecidableEq, Repr

/-- Chunk enriched with ephemeral scores (the `EnhancedChunk` interface). -/
structure EnhancedChunk where
  id : Str
  content : Str
  relevanceScore : Option ℝ
  qualityScore : Option ℝ

namespace UnifiedSearchEngine

/-- One step of the `keywords.forEach` loop of `calculateKeywordScore`:
exact (case-insensitive) membership in the chunk's keyword set adds 10,
otherwise a substring occurrence in the content adds `min(count * 2, 10)`;
either branch counts as a match. -/
def keywordStep (chunk : PDFChunk) (acc : ℚ × ℕ) (keyword : Str) : ℚ × ℕ :=
  let keywordLower := lowerStr keyword
  let contentLower := lowerStr chunk.content
  let keywordsLower := chunk.keywords.map lowerStr
  if keywordLower ∈ keywordsLower then (acc.1 + 10, acc.2 + 1)
  else if jsIncludes contentLower keywordLower then
    (acc.1 + min ((countOcc keywordLower contentLower : ℚ) * 2) 10, acc.2 + 1)
  else acc

/-- `UnifiedSearchEngine.calculateKeywordScore`: accumulate per-keyword
contributions, return 0 when no keyword matched, otherwise normalise by
`keywords.length * 10` and clamp at 1. -/
def calculateKeywordScore (keywords : List Str) (chunk : PDFChunk) : ℚ :=
  let r := keywords.foldl (keywordStep chunk) (0, 0)
  if r.2 = 0 then 0 else min (r.1 / ((keywords.length : ℚ) * 10)) 1

/-- One step of the `expandedKeywords.forEach` loop of
`calculateSynonymScore`: a synonym occurring in the content adds
`min(count, 5)`. -/
def synonymStep (contentLower : Str) (acc : ℚ) (synonym : Str) : ℚ :=
  let synonymLower := lowerStr synonym
  if jsIncludes contentLower synonymLower then
    acc + min (countOcc synonymLower contentLower : ℚ) 5
  else acc

/-- `UnifiedSearchEngine.calculateSynonymScore`: 0 for an empty expanded
list, otherwise normalise the accumulated occurrence score by
`expandedKeywords.length * 5` and clamp at 1. -/
def calculateSynonymScore (expandedKeywords : List Str) (chunk : PDFChunk) : ℚ :=
  if expandedKeywords.length = 0 then 0
  else
    let contentLower := lowerStr chunk.content
    let score := expandedKeywords.foldl (synonymStep contentLower) 0
    min (score / ((expandedKeywords.length : ℚ) * 5)) 1

/-- `UnifiedSearchEngine.padVector`: right-pad with zeros up to
`targetLength` (or slice down to it). -/
def padVector (vector : List ℚ) (targetLength : ℕ) : List ℚ :=
  if targetLength ≤ vector.length then vector.take targetLength
  else vector ++ List.replicate (targetLength - vector.length) 0

/-- Sum of pointwise products over the common length, as computed by the
`for` loop of `calculateSemanticSimilarity` (which also uses it with
`v v` for the squared magnitudes). -/
def sumProd : List ℚ → List ℚ → ℚ
  | a :: as, b :: bs => a * b + sumProd as bs
  | _, _ => 0

open Classical in
/-- `UnifiedSearchEngine.calculateSemanticSimilarity`: cosine similarity of
the two vectors after padding both to the longer length; 0 when either
magnitude is zero. -/
noncomputable def calculateSemanticSimilarity (vector1 vector2 : List ℚ) : ℝ :=
  let maxLength := max vector1.length vector2.length
  let v1 := padVector vector1 maxLength
  let v2 := padVector vector2 maxLength
  let dotProduct : ℝ := (sumProd v1 v2 : ℚ)
  let magnitude1 : ℝ := Real.sqrt ((sumProd v1 v1 : ℚ) : ℝ)
  let magnitude2 : ℝ := Real.sqrt ((sumProd v2 v2 : ℚ) : ℝ)
  if magnitude1 = 0 ∨ magnitude2 = 0 then 0
  else dotProduct / (magnitude1 * magnitude2)

/-- Per-chunk signal breakdown of the scorer. -/
structure ScoreBreakdown where
  keyword : ℝ
  synonym : ℝ
  semantic : ℝ

/-- Scorer output for one chunk. -/
structure ScoredChunk where
  chunk : PDFChunk
  score : ℝ
  breakdown : ScoreBreakdown

/-- The per-chunk body of `scoreChunksByMultipleStrategies`: the three
signals and the weighted total `keyword*0.4 + synonym*0.3 + semantic*0.3`;
the semantic signal is computed only when both the question embedding and
the chunk embedding exist and is 0 otherwise. -/
noncomputable def scoreChunk (questionEmbedding : Option (List ℚ))
    (questionAnalysis : QuestionAnalysis) (chunk : PDFChunk) : ScoredChunk :=
  let keywordScore : ℚ := calculateKeywordScore questionAnalysis.keywords chunk
  let synonymScore : ℚ :=
    calculateSynonymScore (questionAnalysis.expandedKeywords.getD []) chunk
  let semanticScore : ℝ :=
    match questionEmbedding, chunk.embedding with
    | some qe, some ce => calculateSemanticSimilarity qe ce
    | _, _ => 0
  { chunk := chunk
  , score := (keywordScore : ℝ) * 0.4 + (synonymScore : ℝ) * 0.3 + semanticScore * 0.3
  , breakdown := ⟨(keywordScore : ℝ), (synonymScore : ℝ), semanticScore⟩ }

/-- `scoreChunksByMultipleStrategies` as a whole: the batching into groups
of 100 `Promise`s only groups independent per-chunk computations, so the
result is the plain map. -/
noncomputable def scoreChunksByMultipleStrategies (questionEmbedding : Option (List ℚ))
    (questionAnalysis : QuestionAnalysis) (chunks : List PDFChunk) : List ScoredChunk :=
  chunks.map (scoreChunk questionEmbedding questionAnalysis)

/-- Signal breakdown of a ranker entry; ranker inputs carry float scores,
modelled as rationals. -/
structure QBreakdown where
  keyword : ℚ
  synonym : ℚ
  semantic : ℚ
deriving DecidableEq, Repr

/-- Ranker entry: a converted chunk with its total score and breakdown. -/
structure RankedChunk where
  chunk : Chunk
  score : ℚ
  breakdown : QBreakdown
deriving DecidableEq, Repr

/-- One step of the `scoredChunks.forEach` loop of
`removeDuplicatesAndRank`: upsert into the id-keyed map, replacing an
existing entry only when the incoming score is strictly greater (JS `Map`
keeps the original insertion position on update). -/
def dedupStep (uniqueMap : List RankedChunk) (scored : RankedChunk) : List RankedChunk :=
  match uniqueMap.find? (fun e => e.chunk.id == scored.chunk.id) with
  | none => uniqueMap ++ [scored]
  | some existing =>
    if existing.score < scored.score then
      uniqueMap.map (fun e => if e.chunk.id == scored.chunk.id then scored else e)
    else uniqueMap

/-- Deduplicate by chunk id, keeping the higher score. -/
def removeDuplicates (scoredChunks : List RankedChunk) : List RankedChunk :=
  scoredChunks.foldl dedupStep []

/-- Stable descending insertion: place `x` before the first strictly
smaller score, after any equal scores. -/
def insertDesc (x : RankedChunk) : List RankedChunk → List RankedChunk
  | [] => [x]
  | y :: ys => if y.score ≤ x.score then x :: y :: ys else y :: insertDesc x ys

/-- `uniqueChunks.sort((a, b) => b.score - a.score)`: a stable descending
sort (JS `Array.prototype.sort` is stable). -/
def sortByScoreDesc (l : List RankedChunk) : List RankedChunk := l.foldr insertDesc []

/-- `l.slice(0, endIdx)`: a negative end index counts from the end of the
array. -/
def jsSlice {α : Type} (l : List α) (endIdx : Int) : List α :=
  if endIdx < 0 then l.take ((l.length : Int) + endIdx).toNat else l.take endIdx.toNat

/-- `UnifiedSearchEngine.removeDuplicatesAndRank`: dedup by id keeping the
higher score, sort by score descending, truncate with `slice(0, maxChunks)`. -/
def removeDuplicatesAndRank (scoredChunks : List RankedChunk) (maxChunks : Int) : List RankedChunk :=
  jsSlice (sortByScoreDesc (removeDuplicates scoredChunks)) maxChunks

/-- `UnifiedSearchEngine.calculateAverageRelevance`: 0 for an empty list,
otherwise the mean of `relevanceScore || 0`. -/
noncomputable def calculateAverageRelevance (chunks : List EnhancedChunk) : ℝ :=
  if chunks.length = 0 then 0
  else (chunks.foldl (fun acc chunk => acc + chunk.relevanceScore.getD 0) 0) / (chunks.length : ℝ)

/-- `UnifiedSearchEngine.calculateScoreBreakdown`: the zero record for an
empty list, otherwise the per-signal means. -/
noncomputable def calculateScoreBreakdown (scoredChunks : List ScoredChunk) : ScoreBreakdown :=
  if scoredChunks.length = 0 then ⟨0, 0, 0⟩
  else
    let sums := scoredChunks.foldl
      (fun acc scored =>
        (⟨acc.keyword + scored.breakdown.keyword,
          acc.synonym + scored.breakdown.synonym,
          acc.semantic + scored.breakdown.semantic⟩ : ScoreBreakdown))
      (⟨0, 0, 0⟩ : ScoreBreakdown)
    ⟨sums.keyword / (scoredChunks.length : ℝ),
     sums.synonym / (scoredChunks.length : ℝ),
     sums.semantic / (scoredChunks.length : ℝ)⟩

end UnifiedSearchEngine

namespace ContextSelector

/-- `ContextSelector.MAX_CONTEXT_LENGTH`: total context budget in characters. -/
def MAX_CONTEXT_LENGTH : ℕ := 10000

/-- `ContextSelector.MAX_CHUNK_LENGTH`: per-chunk length cap in characters. -/
def MAX_CHUNK_LENGTH : ℕ := 3000

/-- The per-chunk trimming map of `applyContextLengthLimit`: content longer
than the cap is cut at the cap and an ellipsis `'...'` is appended. -/
def trimChunk (chunk : Chunk) : Chunk :=
  if MAX_CHUNK_LENGTH < chunk.content.length then
    { chunk with content := chunk.content.take MAX_CHUNK_LENGTH ++ toStr "..." }
  else chunk

/-- The `for` loop of `ContextSelector.applyContextLengthLimit`: accept
chunks in order, breaking at the first chunk that would push the running
total past the budget, or once `maxChunks` chunks have been accepted. -/
def limitLoop (maxChunks : Int) : List Chunk → ℕ → ℕ → List Chunk
  | [], _, _ => []
  | chunk :: rest, totalLength, acceptedCount =>
    if MAX_CONTEXT_LENGTH < totalLength + chunk.content.length then []
    else if maxChunks ≤ (acceptedCount : Int) then []
    else chunk :: limitLoop maxChunks rest (totalLength + chunk.content.length) (acceptedCount + 1)

/-- `ContextSelector.applyContextLengthLimit`: early return on an empty
list, otherwise trim each chunk to the per-chunk cap and take the greedy
prefix within the total budget and chunk-count limit. -/
def applyContextLengthLimit (chunks : List Chunk) (maxChunks : Int) : List Chunk :=
  if chunks.length = 0 then chunks
  else limitLoop maxChunks (chunks.map trimChunk) 0 0

end ContextSelector

namespace AdvancedSearchQualityService

/-- `AdvancedSearchQualityService.MAX_CONTEXT_LENGTH`. -/
def MAX_CONTEXT_LENGTH : ℕ := 50000

/-- The `for` loop of `AdvancedSearchQualityService.applyContextLengthLimit`:
accept chunks in order, breaking at the first chunk that would push the
running total past the budget; there is no per-chunk truncation here. In the
source `chunk.content?.length || 0` guards an undefined content field, which
the model's total `content` renders as the plain length. -/
def limitLoop : List EnhancedChunk → ℕ → List EnhancedChunk
  | [], _ => []
  | chunk :: rest, totalLength =>
    if MAX_CONTEXT_LENGTH < totalLength + chunk.content.length then []
    else chunk :: limitLoop rest (totalLength + chunk.content.length)

/-- `AdvancedSearchQualityService.applyContextLengthLimit`. -/
def applyContextLengthLimit (chunks : List EnhancedChunk) : List EnhancedChunk :=
  limitLoop chunks 0

end AdvancedSearchQualityService

namespace FirestoreService

/-- The keyword-matching test of `searchChunksByKeywords`: some query
keyword and some chunk keyword such that one case-insensitively contains
the other as a substring (the test is bidirectional in the source). -/
def keywordMatch (keywords : List Str) (data : PDFChunk) : Bool :=
  keywords.any fun keyword =>
    data.keywords.any fun k =>
      jsIncludes (lowerStr k) (lowerStr keyword) || jsIncludes (lowerStr keyword) (lowerStr k)

/-- The client-side document filter: skip a chunk when a `documentId` scope
is given and differs from the chunk's. -/
def docFilter (documentId : Option Str) (data : PDFChunk) : Bool :=
  match documentId with
  | some d => data.documentId == d
  | none => true

/-- `FirestoreService.searchChunksByKeywords`: fetch the first
`limitCount * 2` chunks of the collection (the store is modelled as an
ordered list), filter client-side by document scope and keyword match,
and return the first `limitCount` of the filtered chunks. -/
def searchChunksByKeywords (store : List PDFChunk) (keywords : List Str)
    (documentId : Option Str) (limitCount : ℕ) : List PDFChunk :=
  let snapshot := store.take (limitCount * 2)
  let chunks := snapshot.filter fun data => docFilter documentId data && keywordMatch keywords data
  chunks.take limitCount

/-- The text-matching test of `searchChunksByText`: the lowered search text
occurs in the lowered content, or the chunk has a (truthy, i.e. non-empty)
`searchableText` in which it occurs. -/
def textMatch (searchText : Str) (data : PDFChunk) : Bool :=
  let lowerSearchText := lowerStr searchText
  jsIncludes (lowerStr data.content) lowerSearchText ||
    (!(data.searchableText == ([] : Str)) && jsIncludes (lowerStr data.searchableText) lowerSearchText)

/-- `FirestoreService.searchChunksByText`: fetch the first `limitCount * 2`
chunks, filter by document scope and text match, return the first
`limitCount`. -/
def searchChunksByText (store : List PDFChunk) (searchText : Str)
    (documentId : Option Str) (limitCount : ℕ) : List PDFChunk :=
  let snapshot := store.take (limitCount * 2)
  let chunks := snapshot.filter fun data => docFilter documentId data && textMatch searchText data
  chunks.take limitCount

/-- Modelled from the spec: the spec's own description of the search
guarantee — "results contain only chunks whose keywords set or content
case-insensitively matches at least one query term (substring match)".
Stated as a definition only to be compared with the behaviour of the
source's filters above. -/
def specTermMatch (terms : List Str) (c : PDFChunk) : Bool :=
  terms.any fun t =>
    c.keywords.any (fun k => jsIncludes (lowerStr k) (lowerStr t)) ||
      jsIncludes (lowerStr c.content) (lowerStr t)

end FirestoreService

namespace QuestionAnalyzer

/-- JS `\s` / `trim` whitespace, approximated by Lean's character classes. -/
def isWs (c : Char) : Bool := c.isWhitespace

/-- The seven-character pattern `'```json'` of the first fence-stripping
regex. -/
def jsonFence : Str := toStr "```json"

/-- The three-character pattern `'```'` of the trailing fence regex. -/
def closingFence : Str := toStr "```"

/-- `responseText.replace(/```json\s*/g, '')`: scan left to right; at each
occurrence of `'```json'` remove it together with the following maximal
whitespace run and continue after it. The fuel argument (at least the text
length) only bounds the recursion; every step consumes at least one
character. -/
def removeJsonFencesAux : ℕ → Str → Str
  | 0, l => l
  | _ + 1, [] => []
  | fuel + 1, c :: rest =>
    if jsonFence.isPrefixOf (c :: rest) then
      removeJsonFencesAux fuel ((rest.drop 6).dropWhile isWs)
    else
      c :: removeJsonFencesAux fuel rest

/-- First replace of `parseAnalysisResponse`. -/
def removeJsonFences (text : Str) : Str := removeJsonFencesAux text.length text

/-- Does the whole remaining text match `/```\s*$/` starting here? -/
def endsAsFence (s : Str) : Bool := closingFence.isPrefixOf s && (s.drop 3).all isWs

/-- `.replace(/```\s*$/g, '')`: remove the suffix starting at the leftmost
position from which the text is `'```'` followed only by whitespace. -/
def stripTrailingFence : Str → Str
  | [] => []
  | c :: rest => if endsAsFence (c :: rest) then [] else c :: stripTrailingFence rest

/-- `.trim()`: drop leading and trailing whitespace. -/
def jsTrim (s : Str) : Str := ((s.dropWhile isWs).reverse.dropWhile isWs).reverse

/-- The `cleanedText` of `parseAnalysisResponse`: both fence-stripping
replaces followed by `trim()`. -/
def cleanText (responseText : Str) : Str :=
  jsTrim (stripTrailingFence (removeJsonFences responseText))

/-- The JSON object produced by `JSON.parse` on the cleaned response, with
each expected field possibly absent. -/
structure ParsedAnalysis where
  intent : Option Str
  keywords : Option (List Str)
  category : Option Str
  complexity : Option Str
  entities : Option (List Str)
  context : Option Str
deriving DecidableEq, Repr

/-- JS `v || d` for a possibly-absent string: an absent or empty (falsy)
string falls back to the default. -/
def jsOrStr (v : Option Str) (d : Str) : Str :=
  match v with
  | none => d
  | some s => if s = [] then d else s

/-- The field-defaulting record built by `parseAnalysisResponse` (JS `||`
fallbacks; note an empty array is truthy, so `analysis.keywords || []`
defaults only an absent array). -/
def applyAnalysisDefaults (analysis : ParsedAnalysis) : QuestionAnalysis :=
  { intent := jsOrStr analysis.intent (toStr "일반 문의")
  , keywords := analysis.keywords.getD []
  , expandedKeywords := none
  , category := jsOrStr analysis.category (toStr "general")
  , complexity := jsOrStr analysis.complexity (toStr "simple")
  , entities := analysis.entities.getD []
  , context := jsOrStr analysis.context [] }

/-- `QuestionAnalyzer.parseAnalysisResponse`, with `JSON.parse` (an opaque
JS builtin) abstracted as a `parseJson` argument returning `none` on a
parse error (the source then throws). -/
def parseAnalysisResponse (parseJson : Str → Option ParsedAnalysis)
    (responseText : Str) : Option QuestionAnalysis :=
  (parseJson (cleanText responseText)).map applyAnalysisDefaults

end QuestionAnalyzer

/-! Concrete inputs used by witnesses and counterexamples. -/

/-- Scenario A chunk: keyword set containing exactly the question keyword. -/
def chunkA : PDFChunk :=
  { id := toStr "c1", documentId := toStr "d1", content := toStr "내용"
  , keywords := [toStr "금연구역"], searchableText := [], embedding := none }

/-- Scenario A question analysis: single keyword, no expansion. -/
def qaA : QuestionAnalysis :=
  { intent := [], keywords := [toStr "금연구역"], expandedKeywords := none
  , category := toStr "general", complexity := toStr "simple", entities := [], context := [] }

/-- A chunk whose embedding points opposite to the question embedding. -/
def chunkNeg : PDFChunk :=
  { id := toStr "c2", documentId := toStr "d1", content := toStr "zz"
  , keywords := [], searchableText := [], embedding := some [-1] }

/-- A question analysis with no keywords and no expansion. -/
def qaNeg : QuestionAnalysis :=
  { intent := [], keywords := [], expandedKeywords := none
  , category := toStr "general", complexity := toStr "simple", entities := [], context := [] }

/-- A chunk one character over the per-chunk cap of the context selector. -/
def chunk3001 : Chunk :=
  { id := toStr "long", content := List.replicate 3001 'a', keywords := [] }

/-- A four-thousand-character chunk for the scenario-C check. -/
def chunk4000 : Chunk :=
  { id := toStr "four", content := List.replicate 4000 'a', keywords := [] }

/-- The same four-thousand-character content as an enhanced chunk. -/
def enhanced4000 : EnhancedChunk :=
  { id := toStr "four", content := List.replicate 4000 'a'
  , relevanceScore := none, qualityScore := none }

/-- A ten-character enhanced chunk for the greedy-prefix witness. -/
def enhanced10 : EnhancedChunk :=
  { id := toStr "ten", content := List.replicate 10 'a'
  , relevanceScore := none, qualityScore := none }

/-- A store chunk whose keyword `"ab"` is a proper substring of the query
term `"abc"`; neither its keywords nor its content contain the term. -/
def chunkAb : PDFChunk :=
  { id := toStr "k1", documentId := toStr "d1", content := toStr "zz"
  , keywords := [toStr "ab"], searchableText := toStr "zz", embedding := none }

/-- The parsed-response object with every field absent. -/
def emptyParsed : QuestionAnalyzer.ParsedAnalysis :=
  { intent := none, keywords := none, category := none
  , complexity := none, entities := none, context := none }

/-- The zero signal breakdown used for concrete ranker entries. -/
def qb0 : UnifiedSearchEngine.QBreakdown := ⟨0, 0, 0⟩

/-- A ranker chunk payload with a given id. -/
def rchunk (s : String) : Chunk := { id := toStr s, content := [], keywords := [] }

/-- A ranker entry with a given id and score. -/
def rentry (s : String) (q : ℚ) : UnifiedSearchEngine.RankedChunk :=
  { chunk := rchunk s, score := q, breakdown := qb0 }

/-- A one-character chunk, far below every limit. -/
def chunkSmall : Chunk := { id := toStr "s", content := toStr "a", keywords := [] }

/-- An enhanced chunk one character over the quality-service budget. -/
def enhancedBig : EnhancedChunk :=
  { id := toStr "big", content := List.replicate 50001 'a'
  , relevanceScore := none, qualityScore := none }

/-! Helper lemmas about the scorer. -/

/-- An empty expanded-keyword list scores 0 on the synonym signal. -/
lemma calculateSynonymScore_nil (c : PDFChunk) :
    UnifiedSearchEngine.calculateSynonymScore [] c = 0 := by
  simp [UnifiedSearchEngine.calculateSynonymScore]

/-- A single question keyword that is (case-insensitively) a member of the
chunk's keyword set scores exactly 1 on the keyword signal. -/
lemma calculateKeywordScore_single_mem (c : PDFChunk) (kw : Str)
    (h : lowerStr kw ∈ c.keywords.map lowerStr) :
    UnifiedSearchEngine.calculateKeywordScore [kw] c = 1 := by
  simp [UnifiedSearchEngine.calculateKeywordScore, UnifiedSearchEngine.keywordStep, h]

/-- C10: for an empty result list the average relevance is exactly 0 and
the per-signal score-breakdown averages are exactly zero; the empty case is
handled by an explicit guard, not by a division. -/
theorem empty_metrics_zero :
    UnifiedSearchEngine.calculateAverageRelevance [] = 0 ∧
    UnifiedSearchEngine.calculateScoreBreakdown [] = ⟨0, 0, 0⟩ := by
  constructor
  · simp [UnifiedSearchEngine.calculateAverageRelevance]
  · simp [UnifiedSearchEngine.calculateScoreBreakdown]

/-- C1: the scorer's total is always `0.4*keyword + 0.3*synonym +
0.3*semantic` of its breakdown, whose keyword and synonym components are
the dedicated signal functions; and a chunk whose keyword set contains the
single question keyword (case-insensitively), with no expanded keywords and
no chunk embedding, scores keyword 1, synonym 0, semantic 0, total 0.4. -/
theorem scorer_total_weight_blend :
    (∀ (qe : Option (List ℚ)) (qa : QuestionAnalysis) (c : PDFChunk),
      (UnifiedSearchEngine.scoreChunk qe qa c).score =
        0.4 * (UnifiedSearchEngine.scoreChunk qe qa c).breakdown.keyword +
        0.3 * (UnifiedSearchEngine.scoreChunk qe qa c).breakdown.synonym +
        0.3 * (UnifiedSearchEngine.scoreChunk qe qa c).breakdown.semantic ∧
      (UnifiedSearchEngine.scoreChunk qe qa c).breakdown.keyword =
        (UnifiedSearchEngine.calculateKeywordScore qa.keywords c : ℝ) ∧
      (UnifiedSearchEngine.scoreChunk qe qa c).breakdown.synonym =
        (UnifiedSearchEngine.calculateSynonymScore (qa.expandedKeywords.getD []) c : ℝ)) ∧
    (∀ (qe : Option (List ℚ)) (qa : QuestionAnalysis) (c : PDFChunk) (kw : Str),
      qa.keywords = [kw] → qa.expandedKeywords = none → c.embedding = none →
      lowerStr kw ∈ c.keywords.map lowerStr →
      (UnifiedSearchEngine.scoreChunk qe qa c).breakdown.keyword = 1 ∧
      (UnifiedSearchEngine.scoreChunk qe qa c).breakdown.synonym = 0 ∧
      (UnifiedSearchEngine.scoreChunk qe qa c).breakdown.semantic = 0 ∧
      (UnifiedSearchEngine.scoreChunk qe qa c).score = 0.4) := by
  constructor
  · intro qe qa c
    refine ⟨?_, ?_, ?_⟩ <;> simp [UnifiedSearchEngine.scoreChunk]
    ring
  · intro qe qa c kw h1 h2 h3 hmem
    have hk : UnifiedSearchEngine.calculateKeywordScore qa.keywords c = 1 := by
      rw [h1]; exact calculateKeywordScore_single_mem c kw hmem
    have hs : UnifiedSearchEngine.calculateSynonymScore (qa.expandedKeywords.getD []) c = 0 := by
      rw [h2]; exact calculateSynonymScore_nil c
    cases qe <;> simp [UnifiedSearchEngine.scoreChunk, h3, hk, hs]

/-- Witness for C1: scenario A at `keywords = ["금연구역"]` against a chunk
with exactly that keyword, giving total 0.4. -/
theorem scorer_total_weight_blend_witness :
    (UnifiedSearchEngine.scoreChunk none qaA chunkA).score = 0.4 :=
  (scorer_total_weight_blend.2 none qaA chunkA (toStr "금연구역")
    rfl rfl rfl (by decide)).2.2.2

/-- C7 counterexample: with every field absent, the parsed analysis falls
back to intent `'일반 문의'`, not to the empty string the claim states. -/
theorem intent_default_counterexample :
    (QuestionAnalyzer.applyAnalysisDefaults emptyParsed).intent = toStr "일반 문의" ∧
    ¬ (QuestionAnalyzer.applyAnalysisDefaults emptyParsed).intent = [] := by
  constructor
  · rfl
  · decide

/-- C7 amended: fence markers are stripped before parsing and absent fields
fall back to their defaults — category `'general'`, complexity `'simple'`,
the arrays to `[]`, context to `''`, and intent to `'일반 문의'` (not `''`). -/
theorem parse_defaults_amended :
    (∀ p : QuestionAnalyzer.ParsedAnalysis,
      (p.intent = none → (QuestionAnalyzer.applyAnalysisDefaults p).intent = toStr "일반 문의") ∧
      (p.keywords = none → (QuestionAnalyzer.applyAnalysisDefaults p).keywords = []) ∧
      (p.category = none → (QuestionAnalyzer.applyAnalysisDefaults p).category = toStr "general") ∧
      (p.complexity = none → (QuestionAnalyzer.applyAnalysisDefaults p).complexity = toStr "simple") ∧
      (p.entities = none → (QuestionAnalyzer.applyAnalysisDefaults p).entities = []) ∧
      (p.context = none → (QuestionAnalyzer.applyAnalysisDefaults p).context = [])) ∧
    (∀ (parseJson : Str → Option QuestionAnalyzer.ParsedAnalysis) (text : Str)
        (p : QuestionAnalyzer.ParsedAnalysis),
      parseJson (QuestionAnalyzer.cleanText text) = some p →
      QuestionAnalyzer.parseAnalysisResponse parseJson text =
        some (QuestionAnalyzer.applyAnalysisDefaults p)) ∧
    QuestionAnalyzer.cleanText (toStr "```json\n\x7b\"a\": 1\x7d\n```") = toStr "\x7b\"a\": 1\x7d" := by
  refine ⟨?_, ?_, ?_⟩
  · intro p
    refine ⟨?_, ?_, ?_, ?_, ?_, ?_⟩ <;> intro h <;>
      simp [QuestionAnalyzer.applyAnalysisDefaults, QuestionAnalyzer.jsOrStr, h]
  · intro parseJson text p h
    simp [QuestionAnalyzer.parseAnalysisResponse, h]
  · decide

/-- Witness for C7: the defaults applied to an all-absent object, and the
parse pipeline on a parse function recognising the cleaned text. -/
theorem parse_defaults_amended_witness :
    (QuestionAnalyzer.applyAnalysisDefaults emptyParsed).category = toStr "general" ∧
    QuestionAnalyzer.parseAnalysisResponse (fun _ => some emptyParsed) [] =
      some (QuestionAnalyzer.applyAnalysisDefaults emptyParsed) :=
  ⟨(parse_defaults_amended.1 emptyParsed).2.2.1 rfl,
   parse_defaults_amended.2.1 (fun _ => some emptyParsed) [] emptyParsed rfl⟩

/-! Helper lemmas about the ranker. -/

/-- Inserting into the stable descending sort permutes a cons. -/
lemma insertDesc_perm (x : UnifiedSearchEngine.RankedChunk)
    (l : List UnifiedSearchEngine.RankedChunk) :
    (UnifiedSearchEngine.insertDesc x l).Perm (x :: l) := by
  induction l with
  | nil => exact List.Perm.refl _
  | cons y ys ih =>
    unfold UnifiedSearchEngine.insertDesc
    split
    · exact List.Perm.refl _
    · exact (List.Perm.cons y ih).trans (List.Perm.swap x y ys)

/-- The descending sort is a permutation of its input. -/
lemma sortByScoreDesc_perm (l : List UnifiedSearchEngine.RankedChunk) :
    (UnifiedSearchEngine.sortByScoreDesc l).Perm l := by
  induction l with
  | nil => exact List.Perm.refl _
  | cons x xs ih =>
    exact (insertDesc_perm x _).trans (List.Perm.cons x ih)

/-- A zero end index slices to the empty list. -/
lemma jsSlice_zero {α : Type} (l : List α) : UnifiedSearchEngine.jsSlice l 0 = [] := by
  simp [UnifiedSearchEngine.jsSlice]

/-- An end index at least the length slices to the whole list. -/
lemma jsSlice_of_length_le {α : Type} (l : List α) (e : Int)
    (h : (l.length : Int) ≤ e) : UnifiedSearchEngine.jsSlice l e = l := by
  unfold UnifiedSearchEngine.jsSlice
  rw [if_neg (by omega)]
  exact List.take_of_length_le (by omega)

/-- A negative end index drops that many elements from the end. -/
lemma jsSlice_neg_length {α : Type} (l : List α) (e : Int) (h : e < 0) :
    (UnifiedSearchEngine.jsSlice l e).length = l.length - (-e).toNat := by
  rw [UnifiedSearchEngine.jsSlice, if_pos h, List.length_take]
  omega

/-- Evaluation of the ranker on two entries sharing one id: the second
entry wins only with a strictly greater score. -/
lemma rank_pair_eval (c1 c2 : Chunk) (s1 s2 : ℚ)
    (b1 b2 : UnifiedSearchEngine.QBreakdown) (cap : Int)
    (hid : c1.id = c2.id) (hcap : 1 ≤ cap) :
    UnifiedSearchEngine.removeDuplicatesAndRank
        [⟨c1, s1, b1⟩, ⟨c2, s2, b2⟩] cap =
      if s1 < s2 then [⟨c2, s2, b2⟩] else [⟨c1, s1, b1⟩] := by
  have hbeq : (c1.id == c2.id) = true := beq_iff_eq.mpr hid
  have hslice : ∀ x : UnifiedSearchEngine.RankedChunk,
      UnifiedSearchEngine.jsSlice [x] cap = [x] := fun x =>
    jsSlice_of_length_le [x] cap (by simp; omega)
  unfold UnifiedSearchEngine.removeDuplicatesAndRank UnifiedSearchEngine.removeDuplicates
  simp only [List.foldl]
  rw [show UnifiedSearchEngine.dedupStep [] ⟨c1, s1, b1⟩ = [⟨c1, s1, b1⟩] from rfl]
  simp only [UnifiedSearchEngine.dedupStep, List.find?, hbeq, List.map]
  split
  · simpa [UnifiedSearchEngine.sortByScoreDesc, UnifiedSearchEngine.insertDesc]
      using hslice ⟨c2, s2, b2⟩
  · simpa [UnifiedSearchEngine.sortByScoreDesc, UnifiedSearchEngine.insertDesc]
      using hslice ⟨c1, s1, b1⟩

/-- C9: on two entries with the same chunk id, an exact score tie keeps the
first-seen entry; an existing entry is replaced only by a strictly greater
score, and is kept whenever the later score is less than or equal. -/
theorem dedup_tie_keeps_first :
    ∀ (c1 c2 : Chunk) (b1 b2 : UnifiedSearchEngine.QBreakdown) (cap : Int),
      c1.id = c2.id → 1 ≤ cap →
      (∀ s : ℚ, UnifiedSearchEngine.removeDuplicatesAndRank
          [⟨c1, s, b1⟩, ⟨c2, s, b2⟩] cap = [⟨c1, s, b1⟩]) ∧
      (∀ s1 s2 : ℚ, s1 < s2 → UnifiedSearchEngine.removeDuplicatesAndRank
          [⟨c1, s1, b1⟩, ⟨c2, s2, b2⟩] cap = [⟨c2, s2, b2⟩]) ∧
      (∀ s1 s2 : ℚ, s2 ≤ s1 → UnifiedSearchEngine.removeDuplicatesAndRank
          [⟨c1, s1, b1⟩, ⟨c2, s2, b2⟩] cap = [⟨c1, s1, b1⟩]) := by
  intro c1 c2 b1 b2 cap hid hcap
  refine ⟨fun s => ?_, fun s1 s2 h => ?_, fun s1 s2 h => ?_⟩
  · rw [rank_pair_eval c1 c2 s s b1 b2 cap hid hcap, if_neg (lt_irrefl s)]
  · rw [rank_pair_eval c1 c2 s1 s2 b1 b2 cap hid hcap, if_pos h]
  · rw [rank_pair_eval c1 c2 s1 s2 b1 b2 cap hid hcap, if_neg (not_lt.mpr h)]

/-- Witness for C9: two identical-id entries with equal integer scores keep
the first, and a strictly greater second score replaces it. -/
theorem dedup_tie_keeps_first_witness :
    UnifiedSearchEngine.removeDuplicatesAndRank [rentry "a" 1, rentry "a" 1] 20 =
        [rentry "a" 1] ∧
    UnifiedSearchEngine.removeDuplicatesAndRank [rentry "a" 1, rentry "a" 2] 20 =
        [rentry "a" 2] :=
  ⟨(dedup_tie_keeps_first (rchunk "a") (rchunk "a") qb0 qb0 20 rfl (by decide)).1 1,
   (dedup_tie_keeps_first (rchunk "a") (rchunk "a") qb0 qb0 20 rfl (by decide)).2.1 1 2
     (by norm_num)⟩

/-- C8 counterexample: a cap of `-1` is `≤ 0` but JS `slice(0, -1)` keeps
all but the last entry, so three distinct-id entries yield two, not zero. -/
theorem negative_cap_counterexample :
    ((-1 : Int) ≤ 0) ∧
    (UnifiedSearchEngine.removeDuplicatesAndRank
        [rentry "a" 3, rentry "b" 2, rentry "c" 1] (-1)).length = 2 := by
  constructor
  · decide
  · decide

/-- C8 amended: a cap of exactly 0 yields the empty result; a cap at least
the number of deduplicated entries returns all of them (sorted); a negative
cap keeps all but that many entries from the end (JS `slice` semantics),
rather than yielding the empty result. -/
theorem rank_cap_amended :
    (∀ l : List UnifiedSearchEngine.RankedChunk,
      UnifiedSearchEngine.removeDuplicatesAndRank l 0 = []) ∧
    (∀ (l : List UnifiedSearchEngine.RankedChunk) (cap : Int),
      ((UnifiedSearchEngine.removeDuplicates l).length : Int) ≤ cap →
      UnifiedSearchEngine.removeDuplicatesAndRank l cap =
        UnifiedSearchEngine.sortByScoreDesc (UnifiedSearchEngine.removeDuplicates l)) ∧
    (∀ (l : List UnifiedSearchEngine.RankedChunk) (cap : Int), cap < 0 →
      (UnifiedSearchEngine.removeDuplicatesAndRank l cap).length =
        (UnifiedSearchEngine.removeDuplicates l).length - (-cap).toNat) := by
  refine ⟨fun l => ?_, fun l cap h => ?_, fun l cap h => ?_⟩
  · exact jsSlice_zero _
  · unfold UnifiedSearchEngine.removeDuplicatesAndRank
    exact jsSlice_of_length_le _ _ (by rw [(sortByScoreDesc_perm _).length_eq]; exact h)
  · unfold UnifiedSearchEngine.removeDuplicatesAndRank
    rw [jsSlice_neg_length _ _ h, (sortByScoreDesc_perm _).length_eq]

/-- Witness for C8: a generous cap returns the whole deduplicated list, and
a negative cap drops from the end. -/
theorem rank_cap_amended_witness :
    UnifiedSearchEngine.removeDuplicatesAndRank [rentry "a" 3] 5 =
        UnifiedSearchEngine.sortByScoreDesc (UnifiedSearchEngine.removeDuplicates [rentry "a" 3]) ∧
    (UnifiedSearchEngine.removeDuplicatesAndRank [rentry "a" 3] (-1)).length =
        (UnifiedSearchEngine.removeDuplicates [rentry "a" 3]).length - 1 :=
  ⟨rank_cap_amended.2.1 [rentry "a" 3] 5 (by decide),
   rank_cap_amended.2.2 [rentry "a" 3] (-1) (by decide)⟩

/-! Helper lemmas about the context length limiters. -/

/-- Trimming caps the content length at the cap plus the three-character
ellipsis. -/
lemma trimChunk_length_le (c : Chunk) :
    (ContextSelector.trimChunk c).content.length ≤ ContextSelector.MAX_CHUNK_LENGTH + 3 := by
  unfold ContextSelector.trimChunk
  split
  · simp [toStr]
  · omega

/-- The selector loop keeps the running total within the budget. -/
lemma limitLoop_sum_le (m : Int) (l : List Chunk) :
    ∀ total count : ℕ, total ≤ ContextSelector.MAX_CONTEXT_LENGTH →
    total + ((ContextSelector.limitLoop m l total count).map (fun c => c.content.length)).sum ≤
      ContextSelector.MAX_CONTEXT_LENGTH := by
  induction l with
  | nil => intro total count h; simpa [ContextSelector.limitLoop]
  | cons c rest ih =>
    intro total count h
    unfold ContextSelector.limitLoop
    by_cases h1 : ContextSelector.MAX_CONTEXT_LENGTH < total + c.content.length
    · rw [if_pos h1]; simpa
    rw [if_neg h1]
    by_cases h2 : m ≤ (count : Int)
    · rw [if_pos h2]; simpa
    rw [if_neg h2]
    simp only [List.map_cons, List.sum_cons]
    have := ih (total + c.content.length) (count + 1) (by omega)
    omega

/-- The selector loop returns a prefix of its input. -/
lemma limitLoop_isPrefix (m : Int) (l : List Chunk) :
    ∀ total count : ℕ, ContextSelector.limitLoop m l total count <+: l := by
  induction l with
  | nil => intro total count; exact ⟨[], rfl⟩
  | cons c rest ih =>
    intro total count
    unfold ContextSelector.limitLoop
    split
    · exact ⟨c :: rest, rfl⟩
    split
    · exact ⟨c :: rest, rfl⟩
    · obtain ⟨t, ht⟩ := ih (total + c.content.length) (count + 1)
      exact ⟨t, by rw [List.cons_append, ht]⟩

/-- The quality-service loop keeps the running total within the budget. -/
lemma advLoop_sum_le (l : List EnhancedChunk) :
    ∀ total : ℕ, total ≤ AdvancedSearchQualityService.MAX_CONTEXT_LENGTH →
    total + ((AdvancedSearchQualityService.limitLoop l total).map (fun c => c.content.length)).sum ≤
      AdvancedSearchQualityService.MAX_CONTEXT_LENGTH := by
  induction l with
  | nil => intro total h; simpa [AdvancedSearchQualityService.limitLoop]
  | cons c rest ih =>
    intro total h
    unfold AdvancedSearchQualityService.limitLoop
    by_cases h1 : AdvancedSearchQualityService.MAX_CONTEXT_LENGTH < total + c.content.length
    · rw [if_pos h1]; simpa
    rw [if_neg h1]
    simp only [List.map_cons, List.sum_cons]
    have := ih (total + c.content.length) (by omega)
    omega

/-- The quality-service loop returns a prefix of its input. -/
lemma advLoop_isPrefix (l : List EnhancedChunk) :
    ∀ total : ℕ, AdvancedSearchQualityService.limitLoop l total <+: l := by
  induction l with
  | nil => intro total; exact ⟨[], rfl⟩
  | cons c rest ih =>
    intro total
    unfold AdvancedSearchQualityService.limitLoop
    split
    · exact ⟨c :: rest, rfl⟩
    · obtain ⟨t, ht⟩ := ih (total + c.content.length)
      exact ⟨t, by rw [List.cons_append, ht]⟩

/-- Among prefixes within the budget, the quality-service loop's output is
longest: the greedy stop never loses an acceptable prefix. -/
lemma advLoop_maximal (l : List EnhancedChunk) :
    ∀ (total : ℕ) (p : List EnhancedChunk), p <+: l →
    total + (p.map (fun c => c.content.length)).sum ≤
        AdvancedSearchQualityService.MAX_CONTEXT_LENGTH →
    p.length ≤ (AdvancedSearchQualityService.limitLoop l total).length := by
  induction l with
  | nil =>
    intro total p hp _
    rw [List.prefix_nil.mp hp]
    exact Nat.le_refl 0
  | cons c rest ih =>
    intro total p hp hsum
    cases p with
    | nil => simp
    | cons q qs =>
      obtain ⟨hq, hqs⟩ := (List.cons_prefix_cons.mp hp)
      subst hq
      simp only [List.map_cons, List.sum_cons] at hsum
      unfold AdvancedSearchQualityService.limitLoop
      rw [if_neg (by omega)]
      simpa using ih (total + q.content.length) qs hqs (by omega)

/-- C3 counterexample: a chunk of length 3001 is "truncated" to the cap
plus an appended `'...'`, so the accepted chunk has length 3003, exceeding
the per-chunk cap of 3000 (and exceeding the original would-be cap-length
truncation the claim describes). -/
theorem per_chunk_cap_exceeded_counterexample :
    (ContextSelector.applyContextLengthLimit [chunk3001] 3).map (fun c => c.content.length) =
        [3003] ∧
    ContextSelector.MAX_CHUNK_LENGTH < 3003 := by
  have ht : (ContextSelector.trimChunk chunk3001).content.length = 3003 := by
    rw [ContextSelector.trimChunk, chunk3001]
    rw [if_pos (by simp only [List.length_replicate, ContextSelector.MAX_CHUNK_LENGTH]; norm_num)]
    simp only [toStr, List.length_append, List.length_take, List.length_replicate,
      ContextSelector.MAX_CHUNK_LENGTH]
    norm_num [String.data]
  constructor
  · rw [ContextSelector.applyContextLengthLimit, if_neg (by norm_num)]
    simp only [List.map_cons, List.map_nil]
    rw [ContextSelector.limitLoop,
      if_neg (by simp only [ht, ContextSelector.MAX_CONTEXT_LENGTH]; norm_num),
      if_neg (by norm_num)]
    rw [ContextSelector.limitLoop]
    simp only [List.map_cons, List.map_nil, ht]
  · norm_num [ContextSelector.MAX_CHUNK_LENGTH]

/-- C3 amended: the context selector's limiter keeps the sum of accepted
content lengths within the 10000-character budget and every accepted
chunk's content within the per-chunk cap plus the 3-character ellipsis
(3003, not 3000); the quality service's limiter keeps the sum within its
50000-character budget and applies no per-chunk cap at all. -/
theorem context_budget_amended :
    (∀ (chunks : List Chunk) (m : Int),
      ((ContextSelector.applyContextLengthLimit chunks m).map (fun c => c.content.length)).sum ≤
        ContextSelector.MAX_CONTEXT_LENGTH) ∧
    (∀ (chunks : List Chunk) (m : Int), ∀ c ∈ ContextSelector.applyContextLengthLimit chunks m,
      c.content.length ≤ ContextSelector.MAX_CHUNK_LENGTH + 3) ∧
    (∀ chunks : List EnhancedChunk,
      ((AdvancedSearchQualityService.applyContextLengthLimit chunks).map
          (fun c => c.content.length)).sum ≤
        AdvancedSearchQualityService.MAX_CONTEXT_LENGTH) := by
  refine ⟨fun chunks m => ?_, fun chunks m c hc => ?_, fun chunks => ?_⟩
  · rw [ContextSelector.applyContextLengthLimit]
    split
    · simp [List.length_eq_zero.mp (by assumption)]
    · simpa using limitLoop_sum_le m (chunks.map ContextSelector.trimChunk) 0 0 (by norm_num)
  · rw [ContextSelector.applyContextLengthLimit] at hc
    split at hc
    · simp_all
    · have hmem : c ∈ chunks.map ContextSelector.trimChunk :=
        (limitLoop_isPrefix m (chunks.map ContextSelector.trimChunk) 0 0).sublist.subset hc
      obtain ⟨orig, _, horig⟩ := List.mem_map.mp hmem
      rw [← horig]
      exact trimChunk_length_le orig
  · simpa using advLoop_sum_le chunks 0 (by norm_num)

/-- Witness for C3: the per-chunk bound applied to a concrete accepted
chunk of the selector's limiter. -/
theorem context_budget_amended_witness :
    chunkSmall.content.length ≤ ContextSelector.MAX_CHUNK_LENGTH + 3 :=
  context_budget_amended.2.1 [chunkSmall] 3 chunkSmall (by decide)

/-- C5 counterexample: three chunks of raw length 4000 each are all
accepted by both limiters (the budgets are the hardcoded 10000 — after
per-chunk trimming to 3003 — and 50000, not the claimed 9000 with a 5000
cap), so the output has three chunks, not exactly the first two. -/
theorem greedy_prefix_scenario_counterexample :
    (AdvancedSearchQualityService.applyContextLengthLimit
        [enhanced4000, enhanced4000, enhanced4000]).length = 3 ∧
    (ContextSelector.applyContextLengthLimit [chunk4000, chunk4000, chunk4000] 3).length = 3 := by
  constructor
  · rw [AdvancedSearchQualityService.applyContextLengthLimit]
    rw [AdvancedSearchQualityService.limitLoop,
      if_neg (by simp only [enhanced4000, List.length_replicate,
        AdvancedSearchQualityService.MAX_CONTEXT_LENGTH]; norm_num)]
    rw [AdvancedSearchQualityService.limitLoop,
      if_neg (by simp only [enhanced4000, List.length_replicate,
        AdvancedSearchQualityService.MAX_CONTEXT_LENGTH]; norm_num)]
    rw [AdvancedSearchQualityService.limitLoop,
      if_neg (by simp only [enhanced4000, List.length_replicate,
        AdvancedSearchQualityService.MAX_CONTEXT_LENGTH]; norm_num)]
    rw [AdvancedSearchQualityService.limitLoop]
    rfl
  · have ht : (ContextSelector.trimChunk chunk4000).content.length = 3003 := by
      rw [ContextSelector.trimChunk, chunk4000]
      rw [if_pos (by simp only [List.length_replicate, ContextSelector.MAX_CHUNK_LENGTH]; norm_num)]
      simp only [toStr, List.length_append, List.length_take, List.length_replicate,
        ContextSelector.MAX_CHUNK_LENGTH]
      norm_num [String.data]
    rw [ContextSelector.applyContextLengthLimit, if_neg (by norm_num)]
    simp only [List.map_cons, List.map_nil]
    rw [ContextSelector.limitLoop,
      if_neg (by simp only [ht, ContextSelector.MAX_CONTEXT_LENGTH]; norm_num),
      if_neg (by norm_num)]
    rw [ContextSelector.limitLoop,
      if_neg (by simp only [ht, ContextSelector.MAX_CONTEXT_LENGTH]; norm_num),
      if_neg (by norm_num)]
    rw [ContextSelector.limitLoop,
      if_neg (by simp only [ht, ContextSelector.MAX_CONTEXT_LENGTH]; norm_num),
      if_neg (by norm_num)]
    rw [ContextSelector.limitLoop]
    rfl

/-- C5 amended: both limiters select a greedy prefix in rank order — the
quality service's output is a prefix of its input and, among prefixes whose
total content length fits its 50000 budget, a longest one; a first chunk
alone exceeding that budget yields the empty list; the selector's output is
a prefix of the trimmed input. With the actual hardcoded constants, three
chunks of length 4000 are all accepted (see the counterexample), so the
claimed 9000-budget scenario does not arise. -/
theorem greedy_prefix_amended :
    (∀ chunks : List EnhancedChunk,
      AdvancedSearchQualityService.applyContextLengthLimit chunks <+: chunks) ∧
    (∀ chunks p : List EnhancedChunk, p <+: chunks →
      (p.map (fun c => c.content.length)).sum ≤ AdvancedSearchQualityService.MAX_CONTEXT_LENGTH →
      p.length ≤ (AdvancedSearchQualityService.applyContextLengthLimit chunks).length) ∧
    (∀ (c : EnhancedChunk) (rest : List EnhancedChunk),
      AdvancedSearchQualityService.MAX_CONTEXT_LENGTH < c.content.length →
      AdvancedSearchQualityService.applyContextLengthLimit (c :: rest) = []) ∧
    (∀ (chunks : List Chunk) (m : Int),
      ContextSelector.applyContextLengthLimit chunks m <+: chunks.map ContextSelector.trimChunk) := by
  refine ⟨fun chunks => ?_, fun chunks p hp hsum => ?_, fun c rest hc => ?_, fun chunks m => ?_⟩
  · exact advLoop_isPrefix chunks 0
  · exact advLoop_maximal chunks 0 p hp (by simpa using hsum)
  · rw [AdvancedSearchQualityService.applyContextLengthLimit,
      AdvancedSearchQualityService.limitLoop, if_pos (by simpa using hc)]
  · rw [ContextSelector.applyContextLengthLimit]
    split
    · simp [List.length_eq_zero.mp (by assumption)]
    · exact limitLoop_isPrefix m (chunks.map ContextSelector.trimChunk) 0 0

/-- Witness for C5: the maximality conjunct applied to a one-chunk list
within budget, and the empty-output conjunct applied to a chunk one
character over the quality-service budget. -/
theorem greedy_prefix_amended_witness :
    (1 ≤ (AdvancedSearchQualityService.applyContextLengthLimit [enhanced10]).length) ∧
    AdvancedSearchQualityService.applyContextLengthLimit [enhancedBig] = [] :=
  ⟨by
    have h := greedy_prefix_amended.2.1 [enhanced10] [enhanced10] (List.prefix_rfl)
      (by simp only [enhanced10, List.map_cons, List.map_nil, List.sum_cons, List.sum_nil,
            List.length_replicate, AdvancedSearchQualityService.MAX_CONTEXT_LENGTH]
          norm_num)
    simpa using h,
   greedy_prefix_amended.2.2.1 enhancedBig []
     (by simp only [enhancedBig, List.length_replicate,
           AdvancedSearchQualityService.MAX_CONTEXT_LENGTH]
         norm_num)⟩

/-- C6 counterexample: the keyword fetch also matches when a chunk keyword
is merely a substring of the query term — the chunk with keyword `"ab"` is
returned for query term `"abc"` although neither its keywords nor its
content contain `"abc"` as required by the claim. -/
theorem search_match_bidirectional_counterexample :
    chunkAb ∈ FirestoreService.searchChunksByKeywords [chunkAb] [toStr "abc"] none 5 ∧
    FirestoreService.specTermMatch [toStr "abc"] chunkAb = false := by
  constructor
  · decide
  · decide

/-- C6 amended: every chunk returned by the keyword fetch has some query
term and some chunk keyword such that, case-insensitively, one is a
substring of the other (a bidirectional test, not only "keywords contain
the term"); every chunk returned by the text fetch contains the query text
in its content or in its non-empty searchableText. Conversely, OR
semantics: a single matching term suffices for inclusion — a chunk of the
fetched snapshot that passes the document filter and matches any one query
term (or the text query) is returned whenever the filtered set fits within
the result cap. -/
theorem search_filter_soundness_amended :
    (∀ (store : List PDFChunk) (keywords : List Str) (documentId : Option Str) (limitCount : ℕ),
      ∀ c ∈ FirestoreService.searchChunksByKeywords store keywords documentId limitCount,
      ∃ kw ∈ keywords, ∃ k ∈ c.keywords,
        (lowerStr kw <:+: lowerStr k) ∨ (lowerStr k <:+: lowerStr kw)) ∧
    (∀ (store : List PDFChunk) (searchText : Str) (documentId : Option Str) (limitCount : ℕ),
      ∀ c ∈ FirestoreService.searchChunksByText store searchText documentId limitCount,
      (lowerStr searchText <:+: lowerStr c.content) ∨
        (c.searchableText ≠ [] ∧ lowerStr searchText <:+: lowerStr c.searchableText)) ∧
    (∀ (store : List PDFChunk) (keywords : List Str) (documentId : Option Str)
      (limitCount : ℕ) (c : PDFChunk) (kw k : Str),
      c ∈ store.take (limitCount * 2) →
      FirestoreService.docFilter documentId c = true →
      kw ∈ keywords → k ∈ c.keywords →
      ((lowerStr kw <:+: lowerStr k) ∨ (lowerStr k <:+: lowerStr kw)) →
      ((store.take (limitCount * 2)).filter
          (fun data => FirestoreService.docFilter documentId data &&
            FirestoreService.keywordMatch keywords data)).length ≤ limitCount →
      c ∈ FirestoreService.searchChunksByKeywords store keywords documentId limitCount) ∧
    (∀ (store : List PDFChunk) (searchText : Str) (documentId : Option Str)
      (limitCount : ℕ) (c : PDFChunk),
      c ∈ store.take (limitCount * 2) →
      FirestoreService.docFilter documentId c = true →
      ((lowerStr searchText <:+: lowerStr c.content) ∨
        (c.searchableText ≠ [] ∧ lowerStr searchText <:+: lowerStr c.searchableText)) →
      ((store.take (limitCount * 2)).filter
          (fun data => FirestoreService.docFilter documentId data &&
            FirestoreService.textMatch searchText data)).length ≤ limitCount →
      c ∈ FirestoreService.searchChunksByText store searchText documentId limitCount) := by
  refine ⟨?_, ?_, ?_, ?_⟩
  · intro store keywords documentId limitCount c hc
    rw [FirestoreService.searchChunksByKeywords] at hc
    have h2 := List.mem_filter.mp (List.take_subset _ _ hc)
    have h3 : FirestoreService.keywordMatch keywords c = true := by
      have := h2.2
      simp only [Bool.and_eq_true] at this
      exact this.2
    rw [FirestoreService.keywordMatch] at h3
    simp only [List.any_eq_true, Bool.or_eq_true, jsIncludes, decide_eq_true_eq] at h3
    obtain ⟨kw, hkw, k, hk, hor⟩ := h3
    exact ⟨kw, hkw, k, hk, hor⟩
  · intro store searchText documentId limitCount c hc
    rw [FirestoreService.searchChunksByText] at hc
    have h2 := List.mem_filter.mp (List.take_subset _ _ hc)
    have h3 : FirestoreService.textMatch searchText c = true := by
      have := h2.2
      simp only [Bool.and_eq_true] at this
      exact this.2
    rw [FirestoreService.textMatch] at h3
    simp only [Bool.or_eq_true, Bool.and_eq_true, jsIncludes, decide_eq_true_eq,
      Bool.not_eq_true', beq_eq_false_iff_ne] at h3
    exact h3
  · intro store keywords documentId limitCount c kw k hsnap hdoc hkw hk hor hlen
    have hmatch : FirestoreService.keywordMatch keywords c = true := by
      rw [FirestoreService.keywordMatch]
      refine List.any_eq_true.mpr ⟨kw, hkw, List.any_eq_true.mpr ⟨k, hk, ?_⟩⟩
      rcases hor with h | h <;> simp [jsIncludes, h]
    rw [FirestoreService.searchChunksByKeywords]
    rw [List.take_of_length_le hlen]
    exact List.mem_filter.mpr ⟨hsnap, by rw [Bool.and_eq_true]; exact ⟨hdoc, hmatch⟩⟩
  · intro store searchText documentId limitCount c hsnap hdoc hor hlen
    have hmatch : FirestoreService.textMatch searchText c = true := by
      rw [FirestoreService.textMatch]
      rcases hor with h | ⟨hne, h⟩
      · simp [jsIncludes, h]
      · simp [jsIncludes, h, hne]
    rw [FirestoreService.searchChunksByText]
    rw [List.take_of_length_le hlen]
    exact List.mem_filter.mpr ⟨hsnap, by rw [Bool.and_eq_true]; exact ⟨hdoc, hmatch⟩⟩

/-- Witness for C6: the soundness statements applied to concrete one-chunk
stores, and the OR-semantics inclusion applied to a two-term query of which
only the second term matches — the chunk is returned on that single match. -/
theorem search_filter_soundness_amended_witness :
    (∃ kw ∈ [toStr "abc"], ∃ k ∈ chunkAb.keywords,
      (lowerStr kw <:+: lowerStr k) ∨ (lowerStr k <:+: lowerStr kw)) ∧
    ((lowerStr (toStr "z") <:+: lowerStr chunkAb.content) ∨
      (chunkAb.searchableText ≠ [] ∧ lowerStr (toStr "z") <:+: lowerStr chunkAb.searchableText)) ∧
    chunkAb ∈ FirestoreService.searchChunksByKeywords [chunkAb]
      [toStr "nomatch", toStr "ab"] none 5 ∧
    chunkAb ∈ FirestoreService.searchChunksByText [chunkAb] (toStr "z") none 5 :=
  ⟨search_filter_soundness_amended.1 [chunkAb] [toStr "abc"] none 5 chunkAb (by decide),
   search_filter_soundness_amended.2.1 [chunkAb] (toStr "z") none 5 chunkAb (by decide),
   search_filter_soundness_amended.2.2.1 [chunkAb] [toStr "nomatch", toStr "ab"] none 5 chunkAb
     (toStr "ab") (toStr "ab") (by decide) (by decide) (by decide) (by decide)
     (Or.inl (by decide)) (by decide),
   search_filter_soundness_amended.2.2.2 [chunkAb] (toStr "z") none 5 chunkAb
     (by decide) (by decide) (Or.inl (by decide)) (by decide)⟩

/-! Helper lemmas for the score bounds. -/

/-- The keyword fold never drives the accumulated score negative. -/
lemma keywordFold_nonneg (chunk : PDFChunk) (ks : List Str) :
    ∀ acc : ℚ × ℕ, 0 ≤ acc.1 → 0 ≤ (ks.foldl (UnifiedSearchEngine.keywordStep chunk) acc).1 := by
  induction ks with
  | nil => intro acc h; simpa
  | cons k rest ih =>
    intro acc h
    simp only [List.foldl]
    apply ih
    unfold UnifiedSearchEngine.keywordStep
    dsimp only
    split
    · simp only; linarith
    split
    · simp only
      have hm : (0:ℚ) ≤ min ((countOcc (lowerStr k) (lowerStr chunk.content) : ℚ) * 2) 10 :=
        le_min (by positivity) (by norm_num)
      linarith
    · exact h

/-- The keyword signal always lies in `[0, 1]`. -/
lemma calculateKeywordScore_bounds (ks : List Str) (chunk : PDFChunk) :
    0 ≤ UnifiedSearchEngine.calculateKeywordScore ks chunk ∧
      UnifiedSearchEngine.calculateKeywordScore ks chunk ≤ 1 := by
  unfold UnifiedSearchEngine.calculateKeywordScore
  dsimp only
  split
  · norm_num
  · constructor
    · apply le_min _ (by norm_num)
      apply div_nonneg (keywordFold_nonneg chunk ks (0, 0) le_rfl)
      positivity
    · exact min_le_right _ _

/-- The synonym fold never drives the accumulated score negative. -/
lemma synonymFold_nonneg (cl : Str) (ks : List Str) :
    ∀ acc : ℚ, 0 ≤ acc → 0 ≤ ks.foldl (UnifiedSearchEngine.synonymStep cl) acc := by
  induction ks with
  | nil => intro acc h; simpa
  | cons k rest ih =>
    intro acc h
    simp only [List.foldl]
    apply ih
    unfold UnifiedSearchEngine.synonymStep
    dsimp only
    split
    · have hm : (0:ℚ) ≤ min ((countOcc (lowerStr k) cl : ℚ)) 5 :=
        le_min (by positivity) (by norm_num)
      linarith
    · exact h

/-- The synonym signal always lies in `[0, 1]`. -/
lemma calculateSynonymScore_bounds (ks : List Str) (chunk : PDFChunk) :
    0 ≤ UnifiedSearchEngine.calculateSynonymScore ks chunk ∧
      UnifiedSearchEngine.calculateSynonymScore ks chunk ≤ 1 := by
  unfold UnifiedSearchEngine.calculateSynonymScore
  dsimp only
  split
  · norm_num
  · constructor
    · apply le_min _ (by norm_num)
      apply div_nonneg (synonymFold_nonneg _ ks 0 le_rfl)
      positivity
    · exact min_le_right _ _

/-- The pointwise-product sum against the empty list is 0. -/
lemma sumProd_nil_left (w : List ℚ) : UnifiedSearchEngine.sumProd [] w = 0 := by
  cases w <;> rfl

/-- A vector's pointwise product with itself sums to a nonnegative value. -/
lemma sumProd_self_nonneg (v : List ℚ) : 0 ≤ UnifiedSearchEngine.sumProd v v := by
  induction v with
  | nil => simp [sumProd_nil_left]
  | cons a as ih =>
    rw [UnifiedSearchEngine.sumProd]
    nlinarith [mul_self_nonneg a]

/-- Padding always produces exactly the target length. -/
lemma padVector_length (v : List ℚ) (n : ℕ) :
    (UnifiedSearchEngine.padVector v n).length = n := by
  unfold UnifiedSearchEngine.padVector
  split
  · simp [List.length_take]; omega
  · simp; omega

/-- The pointwise-product sum of equal-length vectors as a `Finset.range`
sum, for access to the Cauchy-Schwarz inequality. -/
lemma sumProd_eq_sum (v : List ℚ) : ∀ w : List ℚ, v.length = w.length →
    UnifiedSearchEngine.sumProd v w =
      ∑ i in Finset.range v.length, v.getD i 0 * w.getD i 0 := by
  induction v with
  | nil => intro w h; simp [sumProd_nil_left]
  | cons a as ih =>
    intro w h
    cases w with
    | nil => simp at h
    | cons b bs =>
      rw [UnifiedSearchEngine.sumProd]
      simp only [List.length_cons]
      rw [Finset.sum_range_succ']
      simp only [List.getD_cons_succ, List.getD_cons_zero]
      rw [ih bs (by simpa using h)]
      ring

/-- Cauchy-Schwarz for the pointwise-product sum of equal-length vectors. -/
lemma sumProd_sq_le (v w : List ℚ) (h : v.length = w.length) :
    (UnifiedSearchEngine.sumProd v w) ^ 2 ≤
      UnifiedSearchEngine.sumProd v v * UnifiedSearchEngine.sumProd w w := by
  rw [sumProd_eq_sum v w h, sumProd_eq_sum v v rfl, sumProd_eq_sum w w rfl]
  rw [← h]
  calc (∑ i in Finset.range v.length, v.getD i 0 * w.getD i 0) ^ 2
      ≤ (∑ i in Finset.range v.length, (v.getD i 0) ^ 2) *
          ∑ i in Finset.range v.length, (w.getD i 0) ^ 2 :=
        Finset.sum_mul_sq_le_sq_mul_sq _ _ _
    _ = _ := by simp [sq]

/-- The cosine similarity always lies in `[-1, 1]` (and not, in general,
in `[0, 1]`). -/
lemma calculateSemanticSimilarity_bounds (v1 v2 : List ℚ) :
    -1 ≤ UnifiedSearchEngine.calculateSemanticSimilarity v1 v2 ∧
      UnifiedSearchEngine.calculateSemanticSimilarity v1 v2 ≤ 1 := by
  unfold UnifiedSearchEngine.calculateSemanticSimilarity
  dsimp only
  set n := max v1.length v2.length with hn
  set p1 := UnifiedSearchEngine.padVector v1 n with hp1
  set p2 := UnifiedSearchEngine.padVector v2 n with hp2
  set D : ℝ := ((UnifiedSearchEngine.sumProd p1 p2 : ℚ) : ℝ) with hD
  set m1 : ℝ := Real.sqrt ((UnifiedSearchEngine.sumProd p1 p1 : ℚ) : ℝ) with hm1
  set m2 : ℝ := Real.sqrt ((UnifiedSearchEngine.sumProd p2 p2 : ℚ) : ℝ) with hm2
  split
  · norm_num
  · rename_i hne
    push_neg at hne
    have hQ1 : (0:ℝ) ≤ ((UnifiedSearchEngine.sumProd p1 p1 : ℚ) : ℝ) := by
      exact_mod_cast sumProd_self_nonneg p1
    have hQ2 : (0:ℝ) ≤ ((UnifiedSearchEngine.sumProd p2 p2 : ℚ) : ℝ) := by
      exact_mod_cast sumProd_self_nonneg p2
    have hpos1 : 0 < m1 := lt_of_le_of_ne (Real.sqrt_nonneg _) (Ne.symm hne.1)
    have hpos2 : 0 < m2 := lt_of_le_of_ne (Real.sqrt_nonneg _) (Ne.symm hne.2)
    have hcs : D ^ 2 ≤ ((UnifiedSearchEngine.sumProd p1 p1 : ℚ) : ℝ) *
        ((UnifiedSearchEngine.sumProd p2 p2 : ℚ) : ℝ) := by
      have h := sumProd_sq_le p1 p2 (by rw [hp1, hp2, padVector_length, padVector_length])
      rw [hD]
      exact_mod_cast h
    have habs : |D| ≤ m1 * m2 := by
      rw [← Real.sqrt_sq_eq_abs, hm1, hm2, ← Real.sqrt_mul hQ1]
      exact Real.sqrt_le_sqrt hcs
    have hdiv : |D / (m1 * m2)| ≤ 1 := by
      rw [abs_div, abs_of_pos (mul_pos hpos1 hpos2)]
      exact div_le_one_of_le₀ habs (le_of_lt (mul_pos hpos1 hpos2))
    exact abs_le.mp hdiv

/-- The semantic component of a scored chunk lies in `[-1, 1]`. -/
lemma scoreChunk_semantic_bounds (qe : Option (List ℚ)) (qa : QuestionAnalysis) (c : PDFChunk) :
    -1 ≤ (UnifiedSearchEngine.scoreChunk qe qa c).breakdown.semantic ∧
      (UnifiedSearchEngine.scoreChunk qe qa c).breakdown.semantic ≤ 1 := by
  have hrfl : (UnifiedSearchEngine.scoreChunk qe qa c).breakdown.semantic =
      (match qe, c.embedding with
       | some q, some e => UnifiedSearchEngine.calculateSemanticSimilarity q e
       | _, _ => 0) := rfl
  rw [hrfl]
  rcases qe with _ | q <;> rcases hE : c.embedding with _ | e
  · exact ⟨by norm_num, by norm_num⟩
  · exact ⟨by norm_num, by norm_num⟩
  · exact ⟨by norm_num, by norm_num⟩
  · exact calculateSemanticSimilarity_bounds q e

/-- C2 counterexample: with question embedding `[1]` and chunk embedding
`[-1]` (and no keyword or synonym matches), the semantic score is `-1` and
the total is `-0.3`, so neither lies in `[0, 1]`. -/
theorem semantic_score_negative_counterexample :
    (UnifiedSearchEngine.scoreChunk (some [1]) qaNeg chunkNeg).breakdown.semantic = -1 ∧
    (UnifiedSearchEngine.scoreChunk (some [1]) qaNeg chunkNeg).score = -(0.3 : ℝ) := by
  have hsem : UnifiedSearchEngine.calculateSemanticSimilarity [1] [-1] = -1 := by
    unfold UnifiedSearchEngine.calculateSemanticSimilarity
    dsimp only
    norm_num [UnifiedSearchEngine.padVector, UnifiedSearchEngine.sumProd, Real.sqrt_one]
  have hsem' : (UnifiedSearchEngine.scoreChunk (some [1]) qaNeg chunkNeg).breakdown.semantic = -1 := by
    have hrfl : (UnifiedSearchEngine.scoreChunk (some [1]) qaNeg chunkNeg).breakdown.semantic =
        UnifiedSearchEngine.calculateSemanticSimilarity [1] [-1] := rfl
    rw [hrfl, hsem]
  refine ⟨hsem', ?_⟩
  have hk : UnifiedSearchEngine.calculateKeywordScore qaNeg.keywords chunkNeg = 0 := rfl
  have hs : UnifiedSearchEngine.calculateSynonymScore
      (qaNeg.expandedKeywords.getD []) chunkNeg = 0 := rfl
  have hscore : (UnifiedSearchEngine.scoreChunk (some [1]) qaNeg chunkNeg).score =
      ((UnifiedSearchEngine.calculateKeywordScore qaNeg.keywords chunkNeg : ℚ) : ℝ) * 0.4 +
      ((UnifiedSearchEngine.calculateSynonymScore
          (qaNeg.expandedKeywords.getD []) chunkNeg : ℚ) : ℝ) * 0.3 +
      (UnifiedSearchEngine.scoreChunk (some [1]) qaNeg chunkNeg).breakdown.semantic * 0.3 := rfl
  rw [hscore, hk, hs, hsem']
  norm_num

/-- C2 amended: the keyword and synonym signals always lie in `[0, 1]`,
but the semantic signal is an unclamped cosine similarity lying in
`[-1, 1]`, and the weighted total therefore lies in `[-0.3, 1]` rather
than `[0, 1]`. -/
theorem score_bounds_amended :
    ∀ (qe : Option (List ℚ)) (qa : QuestionAnalysis) (c : PDFChunk),
      (0 ≤ UnifiedSearchEngine.calculateKeywordScore qa.keywords c ∧
        UnifiedSearchEngine.calculateKeywordScore qa.keywords c ≤ 1) ∧
      (0 ≤ UnifiedSearchEngine.calculateSynonymScore (qa.expandedKeywords.getD []) c ∧
        UnifiedSearchEngine.calculateSynonymScore (qa.expandedKeywords.getD []) c ≤ 1) ∧
      (-1 ≤ (UnifiedSearchEngine.scoreChunk qe qa c).breakdown.semantic ∧
        (UnifiedSearchEngine.scoreChunk qe qa c).breakdown.semantic ≤ 1) ∧
      (-(0.3 : ℝ) ≤ (UnifiedSearchEngine.scoreChunk qe qa c).score ∧
        (UnifiedSearchEngine.scoreChunk qe qa c).score ≤ 1) := by
  intro qe qa c
  have hk := calculateKeywordScore_bounds qa.keywords c
  have hs := calculateSynonymScore_bounds (qa.expandedKeywords.getD []) c
  have hsem := scoreChunk_semantic_bounds qe qa c
  have hk' : (0:ℝ) ≤ ((UnifiedSearchEngine.calculateKeywordScore qa.keywords c : ℚ) : ℝ) ∧
      ((UnifiedSearchEngine.calculateKeywordScore qa.keywords c : ℚ) : ℝ) ≤ 1 :=
    ⟨by exact_mod_cast hk.1, by exact_mod_cast hk.2⟩
  have hs' : (0:ℝ) ≤
      ((UnifiedSearchEngine.calculateSynonymScore (qa.expandedKeywords.getD []) c : ℚ) : ℝ) ∧
      ((UnifiedSearchEngine.calculateSynonymScore (qa.expandedKeywords.getD []) c : ℚ) : ℝ) ≤ 1 :=
    ⟨by exact_mod_cast hs.1, by exact_mod_cast hs.2⟩
  have hscore : (UnifiedSearchEngine.scoreChunk qe qa c).score =
      ((UnifiedSearchEngine.calculateKeywordScore qa.keywords c : ℚ) : ℝ) * 0.4 +
      ((UnifiedSearchEngine.calculateSynonymScore (qa.expandedKeywords.getD []) c : ℚ) : ℝ) * 0.3 +
      (UnifiedSearchEngine.scoreChunk qe qa c).breakdown.semantic * 0.3 := rfl
  refine ⟨hk, hs, hsem, ?_, ?_⟩ <;> rw [hscore]
  · linarith [hk'.1, hs'.1, hsem.1]
  · linarith [hk'.2, hs'.2, hsem.2]

/-! Helper lemmas for the dedup invariant. -/

open UnifiedSearchEngine in
/-- `dedupStep` branch: no existing entry with the incoming id appends. -/
lemma dedupStep_eq_of_find_none (acc : List RankedChunk) (s : RankedChunk)
    (hf : acc.find? (fun e => e.chunk.id == s.chunk.id) = none) :
    dedupStep acc s = acc ++ [s] := by
  unfold dedupStep
  rw [hf]

open UnifiedSearchEngine in
/-- `dedupStep` branch: a strictly greater incoming score replaces in place. -/
lemma dedupStep_eq_of_find_lt (acc : List RankedChunk) (s ex : RankedChunk)
    (hf : acc.find? (fun e => e.chunk.id == s.chunk.id) = some ex)
    (hlt : ex.score < s.score) :
    dedupStep acc s = acc.map (fun e => if e.chunk.id == s.chunk.id then s else e) := by
  unfold dedupStep
  rw [hf]
  dsimp only
  rw [if_pos hlt]

open UnifiedSearchEngine in
/-- `dedupStep` branch: a smaller-or-equal incoming score is dropped. -/
lemma dedupStep_eq_of_find_ge (acc : List RankedChunk) (s ex : RankedChunk)
    (hf : acc.find? (fun e => e.chunk.id == s.chunk.id) = some ex)
    (hnlt : ¬ ex.score < s.score) :
    dedupStep acc s = acc := by
  unfold dedupStep
  rw [hf]
  dsimp only
  rw [if_neg hnlt]

open UnifiedSearchEngine in
/-- One `dedupStep` preserves the dedup invariant: every map entry is one
of the processed entries, dominates all processed entries with its id,
every processed id is covered, and ids are pairwise distinct. -/
lemma dedupStep_invariant (acc processed : List RankedChunk) (s : RankedChunk)
    (h1 : ∀ e ∈ acc, e ∈ processed)
    (h2 : ∀ e ∈ acc, ∀ x ∈ processed, x.chunk.id = e.chunk.id → x.score ≤ e.score)
    (h3 : ∀ x ∈ processed, ∃ e ∈ acc, e.chunk.id = x.chunk.id)
    (h4 : (acc.map (fun e => e.chunk.id)).Nodup) :
    (∀ e ∈ dedupStep acc s, e ∈ processed ++ [s]) ∧
    (∀ e ∈ dedupStep acc s, ∀ x ∈ processed ++ [s], x.chunk.id = e.chunk.id → x.score ≤ e.score) ∧
    (∀ x ∈ processed ++ [s], ∃ e ∈ dedupStep acc s, e.chunk.id = x.chunk.id) ∧
    ((dedupStep acc s).map (fun e => e.chunk.id)).Nodup := by
  cases hf : acc.find? (fun e => e.chunk.id == s.chunk.id) with
  | none =>
    rw [dedupStep_eq_of_find_none acc s hf]
    have hnone : ∀ e ∈ acc, e.chunk.id ≠ s.chunk.id := by
      intro e he heq
      have := List.find?_eq_none.mp hf e he
      simp [heq] at this
    refine ⟨?_, ?_, ?_, ?_⟩
    · intro e he
      rcases List.mem_append.mp he with h | h
      · exact List.mem_append_left _ (h1 e h)
      · exact List.mem_append_right _ h
    · intro e he x hx heq
      rcases List.mem_append.mp he with heacc | hes
      · rcases List.mem_append.mp hx with hxp | hxs
        · exact h2 e heacc x hxp heq
        · rw [List.mem_singleton] at hxs
          rw [hxs] at heq
          exact absurd heq (fun hh => hnone e heacc hh.symm)
      · rw [List.mem_singleton] at hes
        rcases List.mem_append.mp hx with hxp | hxs
        · obtain ⟨e', he', hid⟩ := h3 x hxp
          rw [hes] at heq
          exact absurd (hid.trans heq) (hnone e' he')
        · rw [List.mem_singleton] at hxs
          rw [hxs, hes]
    · intro x hx
      rcases List.mem_append.mp hx with hxp | hxs
      · obtain ⟨e, he, hid⟩ := h3 x hxp
        exact ⟨e, List.mem_append_left _ he, hid⟩
      · rw [List.mem_singleton] at hxs
        exact ⟨s, List.mem_append_right _ (List.mem_singleton.mpr rfl), by rw [hxs]⟩
    · rw [List.map_append, List.nodup_append]
      refine ⟨h4, by simp, ?_⟩
      intro a ha
      simp only [List.map_cons, List.map_nil, List.mem_singleton]
      obtain ⟨e, he, rfl⟩ := List.mem_map.mp ha
      intro hcon
      exact hnone e he hcon
  | some ex =>
    have hex_mem : ex ∈ acc := List.mem_of_find?_eq_some hf
    have hex_id : ex.chunk.id = s.chunk.id := by
      have := List.find?_some hf
      simpa using this
    have huniq : ∀ e ∈ acc, e.chunk.id = s.chunk.id → e = ex :=
      fun e he hid => List.inj_on_of_nodup_map h4 he hex_mem (by rw [hid, hex_id])
    by_cases hlt : ex.score < s.score
    · rw [dedupStep_eq_of_find_lt acc s ex hf hlt]
      refine ⟨?_, ?_, ?_, ?_⟩
      · intro e' he'
        obtain ⟨e, he, rfl⟩ := List.mem_map.mp he'
        by_cases hc : e.chunk.id = s.chunk.id
        · simp only [hc, beq_self_eq_true, if_true]
          exact List.mem_append_right _ (List.mem_singleton.mpr rfl)
        · rw [if_neg (by simpa using hc)]
          exact List.mem_append_left _ (h1 e he)
      · intro e' he' x hx heq
        obtain ⟨e, he, rfl⟩ := List.mem_map.mp he'
        by_cases hc : e.chunk.id = s.chunk.id
        · rw [if_pos (by simpa using hc)] at heq ⊢
          rcases List.mem_append.mp hx with hxp | hxs
          · have hxex : x.score ≤ ex.score := h2 ex hex_mem x hxp (heq.trans hex_id.symm)
            linarith
          · rw [List.mem_singleton] at hxs
            rw [hxs]
        · rw [if_neg (by simpa using hc)] at heq ⊢
          rcases List.mem_append.mp hx with hxp | hxs
          · exact h2 e he x hxp heq
          · rw [List.mem_singleton] at hxs
            rw [hxs] at heq
            exact absurd heq (fun hh => hc hh.symm)
      · intro x hx
        rcases List.mem_append.mp hx with hxp | hxs
        · obtain ⟨e, he, hid⟩ := h3 x hxp
          by_cases hc : e.chunk.id = s.chunk.id
          · refine ⟨s, List.mem_map.mpr ⟨e, he, by rw [if_pos (by simpa using hc)]⟩, ?_⟩
            rw [← hc, hid]
          · exact ⟨e, List.mem_map.mpr ⟨e, he, by rw [if_neg (by simpa using hc)]⟩, hid⟩
        · rw [List.mem_singleton] at hxs
          refine ⟨s, List.mem_map.mpr ⟨ex, hex_mem, by rw [if_pos (by simpa using hex_id)]⟩, ?_⟩
          rw [hxs]
      · have hmap : (acc.map (fun e => if e.chunk.id == s.chunk.id then s else e)).map
            (fun e => e.chunk.id) = acc.map (fun e => e.chunk.id) := by
          rw [List.map_map]
          apply List.map_congr_left
          intro e _
          by_cases hc : e.chunk.id = s.chunk.id
          · simp only [Function.comp_apply,
              if_pos (by simpa using hc : (e.chunk.id == s.chunk.id) = true)]
            rw [← hc]
          · simp only [Function.comp_apply,
              if_neg (by simpa using hc : ¬ (e.chunk.id == s.chunk.id) = true)]
        rw [hmap]
        exact h4
    · rw [dedupStep_eq_of_find_ge acc s ex hf hlt]
      refine ⟨?_, ?_, ?_, ?_⟩
      · exact fun e he => List.mem_append_left _ (h1 e he)
      · intro e he x hx heq
        rcases List.mem_append.mp hx with hxp | hxs
        · exact h2 e he x hxp heq
        · rw [List.mem_singleton] at hxs
          rw [hxs] at heq
          have heex : e = ex := huniq e he heq.symm
          rw [hxs, heex]
          exact le_of_not_lt hlt
      · intro x hx
        rcases List.mem_append.mp hx with hxp | hxs
        · obtain ⟨e, he, hid⟩ := h3 x hxp
          exact ⟨e, he, hid⟩
        · rw [List.mem_singleton] at hxs
          exact ⟨ex, hex_mem, by rw [hxs, hex_id]⟩
      · exact h4

open UnifiedSearchEngine in
/-- The dedup fold carries the invariant over any processed prefix. -/
lemma dedupFold_invariant (l : List RankedChunk) :
    ∀ acc processed : List RankedChunk,
      (∀ e ∈ acc, e ∈ processed) →
      (∀ e ∈ acc, ∀ x ∈ processed, x.chunk.id = e.chunk.id → x.score ≤ e.score) →
      (∀ x ∈ processed, ∃ e ∈ acc, e.chunk.id = x.chunk.id) →
      ((acc.map (fun e => e.chunk.id)).Nodup) →
      (∀ e ∈ l.foldl dedupStep acc, e ∈ processed ++ l) ∧
      (∀ e ∈ l.foldl dedupStep acc, ∀ x ∈ processed ++ l,
        x.chunk.id = e.chunk.id → x.score ≤ e.score) ∧
      (∀ x ∈ processed ++ l, ∃ e ∈ l.foldl dedupStep acc, e.chunk.id = x.chunk.id) ∧
      ((l.foldl dedupStep acc).map (fun e => e.chunk.id)).Nodup := by
  induction l with
  | nil =>
    intro acc processed h1 h2 h3 h4
    simpa using ⟨h1, h2, h3, h4⟩
  | cons s rest ih =>
    intro acc processed h1 h2 h3 h4
    obtain ⟨g1, g2, g3, g4⟩ := dedupStep_invariant acc processed s h1 h2 h3 h4
    have hres := ih (dedupStep acc s) (processed ++ [s]) g1 g2 g3 g4
    rw [List.foldl_cons]
    rw [show processed ++ s :: rest = (processed ++ [s]) ++ rest by simp]
    exact hres

open UnifiedSearchEngine in
/-- The deduplicated list: entries come from the input, dominate every
same-id input entry, cover every input id, and carry pairwise-distinct ids. -/
lemma removeDuplicates_spec (l : List RankedChunk) :
    (∀ e ∈ removeDuplicates l, e ∈ l) ∧
    (∀ e ∈ removeDuplicates l, ∀ x ∈ l, x.chunk.id = e.chunk.id → x.score ≤ e.score) ∧
    (∀ x ∈ l, ∃ e ∈ removeDuplicates l, e.chunk.id = x.chunk.id) ∧
    ((removeDuplicates l).map (fun e => e.chunk.id)).Nodup := by
  have h := dedupFold_invariant l [] []
    (by intro e he; exact absurd he (List.not_mem_nil e))
    (by intro e he; exact absurd he (List.not_mem_nil e))
    (by intro x hx; exact absurd hx (List.not_mem_nil x))
    (by simp)
  simpa [UnifiedSearchEngine.removeDuplicates] using h

/-- A JS slice is a sublist of the original list. -/
lemma jsSlice_sublist {α : Type} (l : List α) (e : Int) :
    (UnifiedSearchEngine.jsSlice l e).Sublist l := by
  unfold UnifiedSearchEngine.jsSlice
  split <;> exact List.take_sublist _ _

open UnifiedSearchEngine in
/-- C4: the ranker's output never carries two entries with the same chunk
id, every output entry is an input entry whose score dominates all input
scores for its id (so its score is the maximum for that id), and two
entries with identical id and scores 0.3 and 0.7 collapse to exactly one
entry carrying score 0.7. -/
theorem dedup_max_score :
    (∀ (l : List RankedChunk) (cap : Int), ∀ e ∈ removeDuplicatesAndRank l cap,
      e ∈ l ∧ ∀ x ∈ l, x.chunk.id = e.chunk.id → x.score ≤ e.score) ∧
    (∀ (l : List RankedChunk) (cap : Int),
      ((removeDuplicatesAndRank l cap).map (fun e => e.chunk.id)).Nodup) ∧
    (∀ (c : Chunk) (b1 b2 : QBreakdown) (cap : Int), 1 ≤ cap →
      removeDuplicatesAndRank [⟨c, 3/10, b1⟩, ⟨c, 7/10, b2⟩] cap = [⟨c, 7/10, b2⟩]) := by
  refine ⟨?_, ?_, ?_⟩
  · intro l cap e he
    have hspec := removeDuplicates_spec l
    have he' : e ∈ removeDuplicates l :=
      (sortByScoreDesc_perm (removeDuplicates l)).subset
        ((jsSlice_sublist _ _).subset he)
    exact ⟨hspec.1 e he', hspec.2.1 e he'⟩
  · intro l cap
    have hnodup : ((sortByScoreDesc (removeDuplicates l)).map (fun e => e.chunk.id)).Nodup :=
      ((sortByScoreDesc_perm (removeDuplicates l)).map _).nodup_iff.mpr
        (removeDuplicates_spec l).2.2.2
    exact hnodup.sublist ((jsSlice_sublist _ _).map _)
  · intro c b1 b2 cap hcap
    rw [rank_pair_eval c c (3/10) (7/10) b1 b2 cap rfl hcap, if_pos (by norm_num)]

/-- Witness for C4: the max-score statement applied to a concrete
singleton input, and the 0.3/0.7 collapse at cap 20. -/
theorem dedup_max_score_witness :
    (rentry "a" 3 ∈ [rentry "a" 3] ∧
      ∀ x ∈ [rentry "a" 3], x.chunk.id = (rentry "a" 3).chunk.id →
        x.score ≤ (rentry "a" 3).score) ∧
    UnifiedSearchEngine.removeDuplicatesAndRank
        [⟨rchunk "a", 3/10, qb0⟩, ⟨rchunk "a", 7/10, qb0⟩] 20 = [⟨rchunk "a", 7/10, qb0⟩] :=
  ⟨dedup_max_score.1 [rentry "a" 3] 5 (rentry "a" 3) (by decide),
   dedup_max_score.2.2 (rchunk "a") qb0 qb0 20 (by decide)⟩
